import Mathlib

/-!
Request client (`src/utils/api.js`): embedding and verified properties.

The JavaScript module is embedded shallowly:

* strings are sequences of characters (`Str`);
* the host key-value store is an explicit record (`Storage`) threaded through the
  functions that read or write it;
* the UI and transport calls a function performs are collected, in order, in a list of
  `Effect`s returned next to the function's result;
* a promise that resolves is `Except.ok`, a promise that rejects with an `Error` is
  `Except.error` carrying that error;
* the transport (`uni.request`, `fetch`) is a parameter: the outcome it delivers to the
  callbacks, or per attempt for the retrying upload.
-/

set_option autoImplicit false

namespace Api

/-! ## Strings -/

/-- A JavaScript string, as its sequence of characters. -/
abbrev Str := List Char

/-- `s.includes(sub)`: `sub` occurs in `s` as a contiguous substring. -/
def includes : Str → Str → Bool
  | [], sub => sub.isEmpty
  | c :: cs, sub => sub.isPrefixOf (c :: cs) || includes cs sub

/-- `s.startsWith('/')`. -/
def startsWithSlash : Str → Bool
  | c :: _ => c == '/'
  | [] => false

/-- White space and line terminators, the characters `String.prototype.trim` removes. -/
def isWhiteSpace (c : Char) : Bool :=
  let n := c.toNat
  n == 0x09 || n == 0x0A || n == 0x0B || n == 0x0C || n == 0x0D || n == 0x20 || n == 0xA0
    || n == 0x1680 || (0x2000 ≤ n && n ≤ 0x200A) || n == 0x2028 || n == 0x2029
    || n == 0x202F || n == 0x205F || n == 0x3000 || n == 0xFEFF

/-- `s.trim()`: white space removed from both ends. -/
def trim (s : Str) : Str := (s.dropWhile isWhiteSpace).rdropWhile isWhiteSpace

/-- The tail `:\/\/` of the scheme pattern, matched at the head of the input. -/
def colonSlashSlash : Str → Bool
  | c0 :: c1 :: c2 :: _ => c0 == ':' && c1 == '/' && c2 == '/'
  | _ => false

/-- The test `/^https?:\/\//i.test(u)`: `u` starts with `http://` or `https://`, letters in
either case. -/
def hasHttpScheme : Str → Bool
  | c0 :: c1 :: c2 :: c3 :: rest =>
      (c0 == 'h' || c0 == 'H') && (c1 == 't' || c1 == 'T') && (c2 == 't' || c2 == 'T')
        && (c3 == 'p' || c3 == 'P')
        && (match rest with
            | s :: rest1 => ((s == 's' || s == 'S') && colonSlashSlash rest1) || colonSlashSlash rest
            | [] => false)
  | _ => false

/-- The replacement `u.replace(/\/+$/, '')`: the run of `/` at the end of `u` is removed. -/
def stripTrailingSlashes (u : Str) : Str := u.rdropWhile (fun c => c == '/')

/-- The decimal digits of a natural number. -/
def decimal (n : Nat) : Str := Nat.toDigits 10 n

/-- The decimal digits of an integer, with a leading `-` when it is negative. -/
def decimalInt : Int → Str
  | Int.ofNat n => decimal n
  | Int.negSucc n => '-' :: decimal (n + 1)

/-- The constant `Number.MAX_SAFE_INTEGER`, `2^53 - 1`. -/
def MAX_SAFE_INTEGER : Nat := 9007199254740991

/-- How a template literal renders an integer-valued number `n`: its decimal digits while
`|n| ≤ Number.MAX_SAFE_INTEGER`. Beyond that range the language writes the shortest digits
that read back as the same double and, from `1e21`, the exponent form (`1e+21`); that part
of the language is the parameter `renderLarge`. -/
def numberToString (renderLarge : Int → Str) (n : Int) : Str :=
  if n.natAbs ≤ MAX_SAFE_INTEGER then decimalInt n else renderLarge n

/-! ## Constants and storage -/

def DEFAULT_BASE_URL : Str := "http://127.0.0.1:8000".toList

def DEFAULT_USER_ID : Int := 1

/-- The request configuration `REQUEST_CONFIG`. -/
structure RequestConfig where
  timeout : Nat
  retryCount : Nat
  retryDelay : Nat

def REQUEST_CONFIG : RequestConfig := { timeout := 30000, retryCount := 1, retryDelay := 1000 }

/-- A JavaScript number: a finite value (every finite double is a rational), `NaN`, or an
infinity. -/
inductive JSNumber where
  | finite (q : ℚ)
  | nan
  | posInf
  | negInf
  deriving DecidableEq

/-- The two entries of the key-value store the module uses. `api_base_url` is the stored
string, `[]` when the key is absent (`getStorageSync` then returns the empty string);
`user_id` is the stored number, `none` when the key is absent. -/
structure Storage where
  api_base_url : Str
  user_id : Option JSNumber

/-- `Number(raw)` for what `getStorageSync('user_id')` returns: the empty string of an absent
key converts to `0`, a stored number to itself. -/
def storedNumber : Option JSNumber → JSNumber
  | none => JSNumber.finite 0
  | some n => n

/-! ## Base URL management -/

def normalizeBaseURL (url : Str) : Str :=
  if url.isEmpty then DEFAULT_BASE_URL
  else
    let u := trim url
    let u := if !hasHttpScheme u then "http://".toList ++ u else u
    stripTrailingSlashes u

def getBaseURL (st : Storage) : Str :=
  let saved := st.api_base_url
  normalizeBaseURL (if saved.isEmpty then DEFAULT_BASE_URL else saved)

/-- The store after `setBaseURL(url)` and the value returned. -/
def setBaseURL (st : Storage) (url : Str) : Storage × Str :=
  let u := normalizeBaseURL url
  ({ st with api_base_url := u }, u)

def buildURL (st : Storage) (path : Str) : Str :=
  if path.isEmpty then getBaseURL st
  else if hasHttpScheme path then path
  else if !startsWithSlash path then getBaseURL st ++ "/".toList ++ path
  else getBaseURL st ++ path

/-! ## User identifier -/

/-- The expression `Number.isFinite(n) && n > 0 ? Math.floor(n) : DEFAULT_USER_ID`; in
`getUserId` the same test selects between the two returns. -/
def safeUserId : JSNumber → Int
  | JSNumber.finite q => if 0 < q then ⌊q⌋ else DEFAULT_USER_ID
  | _ => DEFAULT_USER_ID

/-- Whether `Number.isFinite(n) && n > 0` holds. -/
def isPositiveFinite : JSNumber → Bool
  | JSNumber.finite q => decide (0 < q)
  | _ => false

/-- The store after `getUserId()` and the value returned: the floor of a stored positive
finite number, the store untouched; otherwise the default, which is also written back. -/
def getUserId (st : Storage) : Storage × Int :=
  let n := storedNumber st.user_id
  if isPositiveFinite n then (st, safeUserId n)
  else ({ st with user_id := some (JSNumber.finite DEFAULT_USER_ID) }, DEFAULT_USER_ID)

/-- The store after `setUserId(userId)` and the value returned. -/
def setUserId (st : Storage) (userId : JSNumber) : Storage × Int :=
  let safeId := safeUserId userId
  ({ st with user_id := some (JSNumber.finite safeId) }, safeId)

/-! ## Errors and effects -/

/-- An `Error` object: its `name` and its `message`. -/
structure JSError where
  name : Str
  message : Str
  deriving DecidableEq

/-- The expression `new Error(message)`. -/
def newError (message : Str) : JSError := { name := "Error".toList, message := message }

/-- The fields `handleError` reads from the object it is given; `none` is an absent field. -/
structure ErrorObj where
  errMsg : Option Str := none
  statusCode : Option Int := none
  message : Option Str := none

/-- The calls made to the UI layer, the transport and the timer, in program order. -/
inductive Effect where
  | showLoading (title : Str)
  | hideLoading
  | showToast (title : Str) (duration : Nat)
  | request (url : Str) (method : Str) (timeout : Nat)
  | fetch (url : Str)
  | wait (ms : Nat)
  deriving DecidableEq

/-- The function `handleError` (its `console.error` line writes a log only). The argument
`renderLarge` is the language's rendering of numbers beyond the safe integers, see
`numberToString`. -/
def handleError (renderLarge : Int → Str) (error : ErrorObj) : Str :=
  if (match error.errMsg with
      | some m => !m.isEmpty && includes m "fail".toList
      | none => false) then
    if includes (error.errMsg.getD []) "timeout".toList then
      "请求超时，请检查网络后重试".toList
    else
      "网络连接失败，请检查后端服务是否启动".toList
  else if (match error.statusCode with
      | some s => s != 0
      | none => false) then
    let status := error.statusCode.getD 0
    if status == 400 then "请求参数错误".toList
    else if status == 404 then "接口不存在".toList
    else if status == 500 then "服务器内部错误".toList
    else "请求失败 (".toList ++ numberToString renderLarge status ++ ")".toList
  else
    match error.message with
    | some m => if m.isEmpty then "未知错误".toList else m
    | none => "未知错误".toList

/-- The function `showError`: one toast. -/
def showError (message : Str) (duration : Nat := 2500) : List Effect :=
  [Effect.showToast message duration]

/-! ## GET -/

/-- Options of `apiGet`, with the defaults of its destructuring. -/
structure GetOptions where
  showLoading : Bool := false
  loadingText : Str := "加载中...".toList
  silent : Bool := false

/-- What `uni.request` delivers: the `success` callback with a response, or the `fail`
callback with a transport error; `complete` runs after either. -/
inductive RequestOutcome (β : Type) where
  | success (statusCode : Int) (data : β)
  | fail (err : ErrorObj)

/-- The function `apiGet`: effects in order, and how the promise settles. -/
def apiGet {β : Type} (renderLarge : Int → Str) (st : Storage) (outcome : RequestOutcome β)
    (path : Str)
    (options : GetOptions := {}) : List Effect × Except JSError β :=
  let before : List Effect :=
    (if options.showLoading then [Effect.showLoading options.loadingText] else [])
      ++ [Effect.request (buildURL st path) "GET".toList REQUEST_CONFIG.timeout]
  let complete : List Effect := if options.showLoading then [Effect.hideLoading] else []
  match outcome with
  | RequestOutcome.success statusCode data =>
      if statusCode == 200 then
        (before ++ complete, Except.ok data)
      else
        let errMsg := handleError renderLarge { statusCode := some statusCode }
        (before ++ (if !options.silent then showError errMsg else []) ++ complete,
          Except.error (newError errMsg))
  | RequestOutcome.fail err =>
      let errMsg := handleError renderLarge err
      (before ++ (if !options.silent then showError errMsg else []) ++ complete,
        Except.error (newError errMsg))

/-! ## Fetch upload with retry -/

/-- Options of `apiFetch`, with the defaults of its destructuring. -/
structure FetchOptions where
  showLoading : Bool := true
  loadingText : Str := "处理中...".toList
  silent : Bool := false
  timeout : Nat := REQUEST_CONFIG.timeout
  retryCount : Nat := 2

/-- What one `fetch` attempt yields: `fetch` itself rejects (an `AbortError` when the
timeout fires, a `TypeError` on a network failure); or a response that is not ok, with what
`response.text()` gives; or an ok response, with what `response.json()` gives. The field
`Response.status` is an unsigned 16-bit integer, which a template literal renders by its
decimal digits. -/
inductive FetchOutcome (β : Type) where
  | throws (err : JSError)
  | notOk (status : Fin 65536) (text : Except JSError Str)
  | ok (json : Except JSError β)

/-- The body of the `try` block for one attempt: the data returned, or the error thrown
into the `catch`. -/
def attemptOnce {β : Type} : FetchOutcome β → Except JSError β
  | FetchOutcome.throws err => Except.error err
  | FetchOutcome.notOk status (Except.ok text) =>
      Except.error (newError ("HTTP ".toList ++ decimal status.val ++ ": ".toList ++ text))
  | FetchOutcome.notOk _ (Except.error err) => Except.error err
  | FetchOutcome.ok json => json

/-- The retry condition of the `catch` block. -/
def shouldRetry (attempt retryCount : Nat) (err : JSError) : Bool :=
  decide (attempt < retryCount)
    && (err.name == "AbortError".toList || includes err.message "network".toList)

/-- How the `for` loop ends: `return data` inside it, or the loop is left (by `break` or by
its condition) with `lastError`. -/
inductive LoopExit (β : Type) where
  | returned (data : β)
  | left (lastError : Option JSError)

/-- The loop `for (let attempt = 0; attempt <= retryCount; attempt++)` from the state
`attempt`, `lastError`; `transport attempt` is the outcome of the attempt with that index.
The first argument bounds the number of iterations; `retryCount + 1 - attempt` is enough
(`retryLoop_fuel`). -/
def retryLoop {β : Type} (transport : Nat → FetchOutcome β) (url : Str) (retryCount : Nat) :
    Nat → Nat → Option JSError → List Effect × LoopExit β
  | 0, _, lastError => ([], LoopExit.left lastError)
  | fuel + 1, attempt, lastError =>
      if attempt ≤ retryCount then
        match attemptOnce (transport attempt) with
        | Except.ok data => ([Effect.fetch url], LoopExit.returned data)
        | Except.error err =>
            if shouldRetry attempt retryCount err then
              let rest := retryLoop transport url retryCount fuel (attempt + 1) (some err)
              (Effect.fetch url :: Effect.wait (1000 * (attempt + 1)) :: rest.1, rest.2)
            else
              ([Effect.fetch url], LoopExit.left (some err))
      else ([], LoopExit.left lastError)

/-- The `TypeError` raised by reading `lastError.name` while `lastError` is `null`. -/
def nullReadError : JSError :=
  { name := "TypeError".toList, message := "Cannot read properties of null".toList }

/-- The function `apiFetch`: effects in order, and how the promise settles. -/
def apiFetch {β : Type} (st : Storage) (transport : Nat → FetchOutcome β) (path : Str)
    (options : FetchOptions := {}) : List Effect × Except JSError β :=
  let shown : List Effect :=
    if options.showLoading then [Effect.showLoading options.loadingText] else []
  let run := retryLoop transport (buildURL st path) options.retryCount
    (options.retryCount + 1) 0 none
  match run.2 with
  | LoopExit.returned data => (shown ++ run.1, Except.ok data)
  | LoopExit.left none => (shown ++ run.1, Except.error nullReadError)
  | LoopExit.left (some lastError) =>
      let errMsg :=
        if lastError.name == "AbortError".toList then "请求超时，请重试".toList
        else if lastError.message.isEmpty then "未知错误".toList else lastError.message
      (shown ++ run.1
          ++ (if !options.silent then showError errMsg 3000 else [])
          ++ (if options.showLoading then [Effect.hideLoading] else []),
        Except.error (newError errMsg))

/-! ## Vocabulary of the statements -/

/-- Number of `showLoading` calls in a trace. -/
def countShow (tr : List Effect) : Nat :=
  tr.countP (fun e => match e with | Effect.showLoading _ => true | _ => false)

/-- Number of `hideLoading` calls in a trace. -/
def countHide (tr : List Effect) : Nat :=
  tr.countP (fun e => match e with | Effect.hideLoading => true | _ => false)

/-- Number of `fetch` attempts in a trace. -/
def countFetch (tr : List Effect) : Nat :=
  tr.countP (fun e => match e with | Effect.fetch _ => true | _ => false)

/-- The toasts of a trace, in order. -/
def toasts (tr : List Effect) : List (Str × Nat) :=
  tr.filterMap (fun e => match e with | Effect.showToast t d => some (t, d) | _ => none)

/-- The backoff waits of a trace, in order. -/
def waits (tr : List Effect) : List Nat :=
  tr.filterMap (fun e => match e with | Effect.wait ms => some ms | _ => none)

/-- The part of a URL after the first `//`. -/
def afterScheme (u : Str) : Str := (u.dropWhile (fun c => c != '/')).drop 2

/-- The trimmed input of `normalizeBaseURL` with the scheme defaulted, before the trailing
slashes are removed. -/
def withScheme (url : Str) : Str :=
  if hasHttpScheme (trim url) then trim url else "http://".toList ++ trim url

/-- The scheme names the pattern `https?` accepts: `http` or `https`, letters in either
case. -/
def isSchemeName : Str → Bool
  | [c0, c1, c2, c3] =>
      (c0 == 'h' || c0 == 'H') && (c1 == 't' || c1 == 'T') && (c2 == 't' || c2 == 'T')
        && (c3 == 'p' || c3 == 'P')
  | [c0, c1, c2, c3, s] =>
      (c0 == 'h' || c0 == 'H') && (c1 == 't' || c1 == 'T') && (c2 == 't' || c2 == 'T')
        && (c3 == 'p' || c3 == 'P') && (s == 's' || s == 'S')
  | _ => false

/-- An error named `AbortError`, what a timed-out attempt throws. -/
def isAbort (e : JSError) : Bool := e.name == "AbortError".toList

/-- The effects of `n` retried attempts starting at attempt `a`: each fetch followed by its
backoff wait. -/
def retriedRounds (url : Str) (a n : Nat) : List Effect :=
  (List.range' a n).flatMap (fun i => [Effect.fetch url, Effect.wait (1000 * (i + 1))])

/-- The `showLoading` call at the start of `apiFetch`. -/
def shownAtStart (options : FetchOptions) : List Effect :=
  if options.showLoading then [Effect.showLoading options.loadingText] else []

/-- The message `apiFetch` rejects with when the loop is left with `lastError`. -/
def finalMessage (lastError : JSError) : Str :=
  if lastError.name == "AbortError".toList then "请求超时，请重试".toList
  else if lastError.message.isEmpty then "未知错误".toList else lastError.message

/-- A stand-in for the rendering of numbers beyond the safe integers, for runs in which
every number is within them. -/
def noLargeNumbers : Int → Str := fun _ => []

/-- An empty store. -/
def emptyStore : Storage := { api_base_url := [], user_id := none }

/-- A transport whose every attempt times out. -/
def alwaysAbort : Nat → FetchOutcome Nat :=
  fun _ => FetchOutcome.throws { name := "AbortError".toList, message := "aborted".toList }

/-- A transport whose every attempt returns an ok response with body `7`. -/
def alwaysOk : Nat → FetchOutcome Nat :=
  fun _ => FetchOutcome.ok (Except.ok 7)

/-- A transport that times out twice and then returns an ok response with body `7`. -/
def abortTwiceThenOk : Nat → FetchOutcome Nat :=
  fun i => if i < 2 then FetchOutcome.throws { name := "AbortError".toList, message := "aborted".toList }
    else FetchOutcome.ok (Except.ok 7)

/-- A transport whose first response is `400` with the text `invalid field network_id`, and
whose later responses are ok with body `7`. -/
def badRequestThenOk : Nat → FetchOutcome Nat :=
  fun i => if i = 0 then FetchOutcome.notOk 400 (Except.ok "invalid field network_id".toList)
    else FetchOutcome.ok (Except.ok 7)

/-- A transport whose every response is `404` with text `missing`. -/
def alwaysNotFound : Nat → FetchOutcome Nat :=
  fun _ => FetchOutcome.notOk 404 (Except.ok "missing".toList)

/-! # Properties -/

/-! ## The retry loop -/

theorem retriedRounds_succ (url : Str) (a n : Nat) :
    retriedRounds url a (n + 1)
      = Effect.fetch url :: Effect.wait (1000 * (a + 1)) :: retriedRounds url (a + 1) n := by
  simp [retriedRounds, List.range'_succ]

theorem countFetch_retriedRounds (url : Str) (a n : Nat) :
    countFetch (retriedRounds url a n) = n := by
  induction n generalizing a with
  | zero => simp [retriedRounds, countFetch]
  | succ n ih =>
    have h := ih (a + 1)
    rw [retriedRounds_succ]
    simp only [countFetch] at h ⊢
    simp [List.countP_cons, h]

theorem waits_retriedRounds (url : Str) (a n : Nat) :
    waits (retriedRounds url a n) = (List.range' a n).map (fun i => 1000 * (i + 1)) := by
  induction n generalizing a with
  | zero => simp [retriedRounds, waits]
  | succ n ih =>
    have h := ih (a + 1)
    rw [retriedRounds_succ]
    simp only [waits] at h ⊢
    simp [List.filterMap_cons, h, List.range'_succ]

theorem toasts_retriedRounds (url : Str) (a n : Nat) :
    toasts (retriedRounds url a n) = [] := by
  induction n generalizing a with
  | zero => simp [retriedRounds, toasts]
  | succ n ih =>
    have h := ih (a + 1)
    rw [retriedRounds_succ]
    simp only [toasts] at h ⊢
    simp [List.filterMap_cons, h]

theorem countHide_retriedRounds (url : Str) (a n : Nat) :
    countHide (retriedRounds url a n) = 0 := by
  induction n generalizing a with
  | zero => simp [retriedRounds, countHide]
  | succ n ih =>
    have h := ih (a + 1)
    rw [retriedRounds_succ]
    simp only [countHide] at h ⊢
    simp [List.countP_cons, h]

theorem backoff_total (n : Nat) :
    ((List.range n).map (fun i => 1000 * (i + 1))).sum = 500 * n * (n + 1) := by
  induction n with
  | zero => simp
  | succ n ih =>
    rw [List.sum_range_succ, ih]
    ring

section Loop

variable {β : Type} (transport : Nat → FetchOutcome β) (url : Str) (retryCount : Nat)

/-- An attempt whose error satisfies the retry condition is followed by its backoff wait and
the rest of the loop. -/
theorem retryLoop_retry (fuel attempt : Nat) (lastError : Option JSError) (err : JSError)
    (h1 : attemptOnce (transport attempt) = Except.error err)
    (h2 : shouldRetry attempt retryCount err = true) :
    retryLoop transport url retryCount (fuel + 1) attempt lastError
      = (Effect.fetch url :: Effect.wait (1000 * (attempt + 1))
            :: (retryLoop transport url retryCount fuel (attempt + 1) (some err)).1,
          (retryLoop transport url retryCount fuel (attempt + 1) (some err)).2) := by
  have h3 : attempt ≤ retryCount := by
    simp [shouldRetry] at h2
    omega
  simp [retryLoop, h1, h2, h3]

/-- An attempt that yields data leaves the loop by `return`. -/
theorem retryLoop_return (fuel attempt : Nat) (lastError : Option JSError) (data : β)
    (h0 : attempt ≤ retryCount)
    (h1 : attemptOnce (transport attempt) = Except.ok data) :
    retryLoop transport url retryCount (fuel + 1) attempt lastError
      = ([Effect.fetch url], LoopExit.returned data) := by
  simp [retryLoop, h0, h1]

/-- An attempt whose error fails the retry condition leaves the loop by `break`. -/
theorem retryLoop_break (fuel attempt : Nat) (lastError : Option JSError) (err : JSError)
    (h0 : attempt ≤ retryCount)
    (h1 : attemptOnce (transport attempt) = Except.error err)
    (h2 : shouldRetry attempt retryCount err = false) :
    retryLoop transport url retryCount (fuel + 1) attempt lastError
      = ([Effect.fetch url], LoopExit.left (some err)) := by
  simp [retryLoop, h0, h1, h2]

/-- After `n` retried attempts the loop continues at attempt `a + n`. -/
theorem retryLoop_rounds (n : Nat) : ∀ (fuel a : Nat) (lastError : Option JSError),
    (∀ i, a ≤ i → i < a + n →
      ∃ e, attemptOnce (transport i) = Except.error e ∧ shouldRetry i retryCount e = true) →
    ∃ last, retryLoop transport url retryCount (fuel + n) a lastError
      = (retriedRounds url a n ++ (retryLoop transport url retryCount fuel (a + n) last).1,
          (retryLoop transport url retryCount fuel (a + n) last).2) := by
  induction n with
  | zero =>
    intro fuel a lastError _
    exact ⟨lastError, by simp [retriedRounds]⟩
  | succ n ih =>
    intro fuel a lastError h
    obtain ⟨e, he1, he2⟩ := h a (Nat.le_refl a) (by omega)
    obtain ⟨last, hl⟩ := ih fuel (a + 1) (some e) (fun i hi1 hi2 => h i (by omega) (by omega))
    refine ⟨last, ?_⟩
    have hf : fuel + (n + 1) = (fuel + n) + 1 := by omega
    rw [hf, retryLoop_retry transport url retryCount (fuel + n) a lastError e he1 he2, hl,
      retriedRounds_succ]
    have ha : a + 1 + n = a + (n + 1) := by omega
    simp [ha]

/-- The bound `retryCount + 1 - attempt` on the iterations is never the reason the loop
stops: any larger bound gives the same run. -/
theorem retryLoop_fuel : ∀ (fuel extra attempt : Nat) (lastError : Option JSError),
    retryCount + 1 - attempt ≤ fuel →
    retryLoop transport url retryCount (fuel + extra) attempt lastError
      = retryLoop transport url retryCount fuel attempt lastError := by
  intro fuel
  induction fuel with
  | zero =>
    intro extra attempt lastError h
    have h1 : ¬ attempt ≤ retryCount := by omega
    cases extra with
    | zero => rfl
    | succ k => simp [retryLoop, h1]
  | succ fuel ih =>
    intro extra attempt lastError h
    have hf : fuel + 1 + extra = (fuel + extra) + 1 := by omega
    rw [hf]
    simp only [retryLoop]
    split
    · split
      · rfl
      · split
        · rw [ih extra (attempt + 1) _ (by omega)]
        · rfl
    · rfl

end Loop

/-! ## Substrings -/

theorem includes_iff_infix (s sub : Str) : includes s sub = true ↔ sub <:+: s := by
  induction s with
  | nil => simp [includes, List.isEmpty_iff]
  | cons c cs ih =>
    rw [includes, Bool.or_eq_true, ih, List.isPrefixOf_iff_prefix, List.infix_cons_iff]

theorem digitChar_ne_n : ∀ m, m < 10 → Nat.digitChar m ≠ 'n' := by decide

theorem toDigitsCore_no_n : ∀ (fuel n : Nat) (ds : List Char),
    (∀ c ∈ ds, c ≠ 'n') → ∀ c ∈ Nat.toDigitsCore 10 fuel n ds, c ≠ 'n' := by
  intro fuel
  induction fuel with
  | zero => intro n ds h; simpa [Nat.toDigitsCore] using h
  | succ fuel ih =>
    intro n ds h
    have hd : ∀ c ∈ Nat.digitChar (n % 10) :: ds, c ≠ 'n' := by
      intro c hc
      rcases List.mem_cons.mp hc with rfl | hc
      · exact digitChar_ne_n _ (Nat.mod_lt n (by decide))
      · exact h c hc
    simp only [Nat.toDigitsCore]
    split
    · exact hd
    · exact ih _ _ hd

theorem decimal_no_n (n : Nat) : ∀ c ∈ decimal n, c ≠ 'n' :=
  toDigitsCore_no_n (n + 1) n [] (by simp)

/-- A word starting with `n` that occurs in `p ++ t`, where `p` has no `n`, occurs in `t`. -/
theorem infix_append_of_no_n (w : Str) (p t : Str) (hp : ∀ c ∈ p, c ≠ 'n') :
    ('n' :: w) <:+: p ++ t ↔ ('n' :: w) <:+: t := by
  induction p with
  | nil => simp
  | cons c p ih =>
    have hp1 : ∀ c ∈ p, c ≠ 'n' := fun d hd => hp d (List.mem_cons_of_mem _ hd)
    rw [List.cons_append, List.infix_cons_iff, ih hp1]
    constructor
    · rintro (h | h)
      · obtain ⟨r, hr⟩ := h
        simp only [List.cons_append, List.cons.injEq] at hr
        exact absurd hr.1.symm (hp c (List.mem_cons_self _ _))
      · exact h
    · exact fun h => Or.inr h

/-- The message of a non-ok response contains `network` exactly when the response text
does. -/
theorem includes_http_message (status : Nat) (text : Str) :
    includes ("HTTP ".toList ++ decimal status ++ ": ".toList ++ text) "network".toList
      = includes text "network".toList := by
  have h1 : ∀ c ∈ "HTTP ".toList, c ≠ 'n' := by decide
  have h2 : ∀ c ∈ ": ".toList, c ≠ 'n' := by decide
  have hp : ∀ c ∈ "HTTP ".toList ++ decimal status ++ ": ".toList, c ≠ 'n' := by
    intro c hc
    rcases List.mem_append.mp hc with hc | hc
    · rcases List.mem_append.mp hc with hc | hc
      · exact h1 c hc
      · exact decimal_no_n status c hc
    · exact h2 c hc
  have h := infix_append_of_no_n "etwork".toList _ text hp
  rw [Bool.eq_iff_iff, includes_iff_infix, includes_iff_infix]
  exact h

/-! ## Runs of `apiFetch` -/

section Runs

variable {β : Type} (st : Storage) (transport : Nat → FetchOutcome β) (path : Str)
  (options : FetchOptions)

/-- The run of `apiFetch` when the attempts before `k` are retried and attempt `k` yields
data: the promise resolves right after the fetch of attempt `k`. -/
theorem apiFetch_of_return (k : Nat) (data : β) (hk : k ≤ options.retryCount)
    (hr : ∀ i, i < k → ∃ e, attemptOnce (transport i) = Except.error e
      ∧ shouldRetry i options.retryCount e = true)
    (hd : attemptOnce (transport k) = Except.ok data) :
    apiFetch st transport path options
      = (shownAtStart options ++ retriedRounds (buildURL st path) 0 k
            ++ [Effect.fetch (buildURL st path)],
          Except.ok data) := by
  obtain ⟨last, hl⟩ := retryLoop_rounds transport (buildURL st path) options.retryCount k
    (options.retryCount + 1 - k) 0 none (fun i _ hi => hr i (by omega))
  have hf : options.retryCount + 1 - k + k = options.retryCount + 1 := by omega
  have hg : options.retryCount + 1 - k = (options.retryCount - k) + 1 := by omega
  rw [hf, hg, Nat.zero_add,
    retryLoop_return transport (buildURL st path) options.retryCount _ k last data hk hd] at hl
  simp only [apiFetch, hl, shownAtStart, List.append_assoc]

/-- The run of `apiFetch` when the attempts before `k` are retried and the error of attempt
`k` is not: one toast unless silent, `hideLoading` when the indicator was shown, and the
promise rejects with the final message. -/
theorem apiFetch_of_break (k : Nat) (err : JSError) (hk : k ≤ options.retryCount)
    (hr : ∀ i, i < k → ∃ e, attemptOnce (transport i) = Except.error e
      ∧ shouldRetry i options.retryCount e = true)
    (hd : attemptOnce (transport k) = Except.error err)
    (hn : shouldRetry k options.retryCount err = false) :
    apiFetch st transport path options
      = (shownAtStart options ++ retriedRounds (buildURL st path) 0 k
            ++ [Effect.fetch (buildURL st path)]
            ++ (if options.silent then [] else [Effect.showToast (finalMessage err) 3000])
            ++ (if options.showLoading then [Effect.hideLoading] else []),
          Except.error (newError (finalMessage err))) := by
  obtain ⟨last, hl⟩ := retryLoop_rounds transport (buildURL st path) options.retryCount k
    (options.retryCount + 1 - k) 0 none (fun i _ hi => hr i (by omega))
  have hf : options.retryCount + 1 - k + k = options.retryCount + 1 := by omega
  have hg : options.retryCount + 1 - k = (options.retryCount - k) + 1 := by omega
  rw [hf, hg, Nat.zero_add,
    retryLoop_break transport (buildURL st path) options.retryCount _ k last err hk hd hn] at hl
  cases hs : options.silent <;>
    simp [apiFetch, hl, shownAtStart, finalMessage, showError, hs, List.append_assoc]

end Runs

/-! ## Counting in traces -/

theorem countFetch_append (a b : List Effect) :
    countFetch (a ++ b) = countFetch a + countFetch b := by
  simp [countFetch, List.countP_append]

theorem waits_append (a b : List Effect) : waits (a ++ b) = waits a ++ waits b := by
  simp [waits, List.filterMap_append]

theorem countFetch_shown (options : FetchOptions) : countFetch (shownAtStart options) = 0 := by
  cases h : options.showLoading <;> simp [shownAtStart, countFetch, h]

theorem waits_shown (options : FetchOptions) : waits (shownAtStart options) = [] := by
  cases h : options.showLoading <;> simp [shownAtStart, waits, h]

theorem countFetch_closing (silent showLoading : Bool) (msg : Str) :
    countFetch ((if silent then [] else [Effect.showToast msg 3000])
      ++ (if showLoading then [Effect.hideLoading] else [])) = 0 := by
  cases silent <;> cases showLoading <;> simp [countFetch]

theorem waits_closing (silent showLoading : Bool) (msg : Str) :
    waits ((if silent then [] else [Effect.showToast msg 3000])
      ++ (if showLoading then [Effect.hideLoading] else [])) = [] := by
  cases silent <;> cases showLoading <;> simp [waits]

/-- A timed-out attempt before the last one satisfies the retry condition. -/
theorem shouldRetry_abort (i retryCount : Nat) (e : JSError) (hi : i < retryCount)
    (he : isAbort e = true) : shouldRetry i retryCount e = true := by
  simp only [isAbort] at he
  unfold shouldRetry
  rw [he]
  simp [hi]

/-- No error satisfies the retry condition at the last attempt. -/
theorem shouldRetry_last (retryCount : Nat) (e : JSError) :
    shouldRetry retryCount retryCount e = false := by
  simp [shouldRetry]

theorem finalMessage_abort (e : JSError) (he : isAbort e = true) :
    finalMessage e = "请求超时，请重试".toList := by
  simp only [isAbort] at he
  unfold finalMessage
  rw [if_pos he]

theorem finalMessage_http (status : Nat) (text : Str) :
    finalMessage (newError ("HTTP ".toList ++ decimal status ++ ": ".toList ++ text))
      = "HTTP ".toList ++ decimal status ++ ": ".toList ++ text := by
  have h : ("Error".toList == "AbortError".toList) = false := by decide
  simp [finalMessage, newError, h]

/-! ## Trimming at the end of a list -/

theorem rdropWhile_append_all {α : Type} (p : α → Bool) (a b : List α)
    (h : ∀ x ∈ b, p x = true) : (a ++ b).rdropWhile p = a.rdropWhile p := by
  induction b using List.reverseRecOn with
  | nil => simp
  | append_singleton b x ih =>
    rw [← List.append_assoc, List.rdropWhile_concat_pos _ _ _ (h x (by simp))]
    exact ih (fun y hy => h y (by simp [hy]))

theorem rdropWhile_append_some {α : Type} (p : α → Bool) (a b : List α)
    (h : ∃ x ∈ b, p x = false) : (a ++ b).rdropWhile p = a ++ b.rdropWhile p := by
  induction b using List.reverseRecOn with
  | nil => simp at h
  | append_singleton b x ih =>
    cases hx : p x with
    | true =>
      rw [← List.append_assoc, List.rdropWhile_concat_pos _ _ _ hx,
        List.rdropWhile_concat_pos _ _ _ hx]
      apply ih
      obtain ⟨y, hy, hpy⟩ := h
      rcases List.mem_append.mp hy with hy | hy
      · exact ⟨y, hy, hpy⟩
      · simp only [List.mem_singleton] at hy
        rw [hy, hx] at hpy
        cases hpy
    | false =>
      rw [← List.append_assoc, List.rdropWhile_concat_neg _ _ _ (by simp [hx]),
        List.rdropWhile_concat_neg _ _ _ (by simp [hx])]
      simp

/-- A list is unchanged by `rdropWhile p` exactly when its last element, if any, fails
`p`. -/
theorem rdropWhile_eq_self {α : Type} (p : α → Bool) (l : List α) :
    l.rdropWhile p = l ↔ ∀ c, l.getLast? = some c → p c = false := by
  induction l using List.reverseRecOn with
  | nil => simp
  | append_singleton l x _ =>
    rw [List.rdropWhile_concat, List.getLast?_concat]
    cases hx : p x with
    | true =>
      simp only [if_true, Option.some.injEq, forall_eq']
      constructor
      · intro h
        have h1 := ( List.rdropWhile_prefix p l).length_le
        rw [h] at h1
        simp at h1
      · intro h
        rw [hx] at h
        cases h
    | false => simp [hx]

theorem rdropWhile_getLast {α : Type} (p : α → Bool) (l : List α) (c : α)
    (h : (l.rdropWhile p).getLast? = some c) : p c = false :=
  (rdropWhile_eq_self p _).mp (List.rdropWhile_idempotent p l) c h

theorem dropWhile_append_all {α : Type} (p : α → Bool) (a b : List α)
    (h : ∀ x ∈ a, p x = true) : (a ++ b).dropWhile p = b.dropWhile p := by
  induction a with
  | nil => rfl
  | cons x a ih =>
    rw [List.cons_append, List.dropWhile_cons, if_pos (h x (List.mem_cons_self _ _))]
    exact ih (fun y hy => h y (List.mem_cons_of_mem _ hy))

/-! ## The scheme test -/

theorem colonSlashSlash_iff (r : Str) :
    colonSlashSlash r = true ↔ ∃ rest, r = ':' :: '/' :: '/' :: rest := by
  rcases r with _ | ⟨c0, _ | ⟨c1, _ | ⟨c2, rest⟩⟩⟩ <;> simp [colonSlashSlash, and_assoc]

theorem hasHttpScheme_iff (u : Str) :
    hasHttpScheme u = true
      ↔ ∃ sch rest, isSchemeName sch = true ∧ u = sch ++ ':' :: '/' :: '/' :: rest := by
  constructor
  · intro h
    rcases u with _ | ⟨c0, _ | ⟨c1, _ | ⟨c2, _ | ⟨c3, rest⟩⟩⟩⟩
    · simp [hasHttpScheme] at h
    · simp [hasHttpScheme] at h
    · simp [hasHttpScheme] at h
    · simp [hasHttpScheme] at h
    · rcases rest with _ | ⟨s, rest1⟩
      · simp [hasHttpScheme] at h
      · simp only [hasHttpScheme, Bool.and_eq_true, Bool.or_eq_true] at h
        obtain ⟨hw, hr⟩ := h
        rcases hr with ⟨hs, hr⟩ | hr
        · obtain ⟨r, hr⟩ := (colonSlashSlash_iff _).mp hr
          refine ⟨[c0, c1, c2, c3, s], r, ?_, by simp [hr]⟩
          simp only [isSchemeName, Bool.and_eq_true, Bool.or_eq_true]
          exact ⟨hw, hs⟩
        · obtain ⟨r, hr⟩ := (colonSlashSlash_iff _).mp hr
          refine ⟨[c0, c1, c2, c3], r, ?_, by simp [hr]⟩
          simp only [isSchemeName, Bool.and_eq_true, Bool.or_eq_true]
          exact hw
  · rintro ⟨sch, rest, hs, rfl⟩
    rcases sch with _ | ⟨c0, _ | ⟨c1, _ | ⟨c2, _ | ⟨c3, _ | ⟨s, _ | ⟨x, r⟩⟩⟩⟩⟩⟩
    · simp [isSchemeName] at hs
    · simp [isSchemeName] at hs
    · simp [isSchemeName] at hs
    · simp [isSchemeName] at hs
    · simp only [isSchemeName, Bool.and_eq_true, Bool.or_eq_true] at hs
      simp only [hasHttpScheme, List.cons_append, List.nil_append, Bool.and_eq_true,
        Bool.or_eq_true]
      exact ⟨hs, Or.inr (by simp [colonSlashSlash])⟩
    · simp only [isSchemeName, Bool.and_eq_true, Bool.or_eq_true] at hs
      simp only [hasHttpScheme, List.cons_append, List.nil_append, Bool.and_eq_true,
        Bool.or_eq_true]
      exact ⟨hs.1, Or.inl ⟨hs.2, by simp [colonSlashSlash]⟩⟩
    · simp [isSchemeName] at hs

/-- A scheme name has four or five characters, none of them `/` or white space. -/
theorem isSchemeName_chars (sch : Str) (h : isSchemeName sch = true) :
    (sch.length = 4 ∨ sch.length = 5)
      ∧ ∀ c ∈ sch, c ≠ '/' ∧ isWhiteSpace c = false := by
  have hh : ∀ c : Char, (c == 'h' || c == 'H') = true → c ≠ '/' ∧ isWhiteSpace c = false := by
    intro c hc
    simp only [Bool.or_eq_true, beq_iff_eq] at hc
    rcases hc with rfl | rfl <;> decide
  have ht : ∀ c : Char, (c == 't' || c == 'T') = true → c ≠ '/' ∧ isWhiteSpace c = false := by
    intro c hc
    simp only [Bool.or_eq_true, beq_iff_eq] at hc
    rcases hc with rfl | rfl <;> decide
  have hp : ∀ c : Char, (c == 'p' || c == 'P') = true → c ≠ '/' ∧ isWhiteSpace c = false := by
    intro c hc
    simp only [Bool.or_eq_true, beq_iff_eq] at hc
    rcases hc with rfl | rfl <;> decide
  have hs : ∀ c : Char, (c == 's' || c == 'S') = true → c ≠ '/' ∧ isWhiteSpace c = false := by
    intro c hc
    simp only [Bool.or_eq_true, beq_iff_eq] at hc
    rcases hc with rfl | rfl <;> decide
  rcases sch with _ | ⟨c0, _ | ⟨c1, _ | ⟨c2, _ | ⟨c3, _ | ⟨s, _ | ⟨x, r⟩⟩⟩⟩⟩⟩
  · simp [isSchemeName] at h
  · simp [isSchemeName] at h
  · simp [isSchemeName] at h
  · simp [isSchemeName] at h
  · simp only [isSchemeName, Bool.and_eq_true] at h
    refine ⟨Or.inl rfl, ?_⟩
    intro c hc
    simp only [List.mem_cons, List.mem_singleton, List.not_mem_nil, or_false] at hc
    rcases hc with rfl | rfl | rfl | rfl
    · exact hh _ h.1.1.1
    · exact ht _ h.1.1.2
    · exact ht _ h.1.2
    · exact hp _ h.2
  · simp only [isSchemeName, Bool.and_eq_true] at h
    refine ⟨Or.inr rfl, ?_⟩
    intro c hc
    simp only [List.mem_cons, List.mem_singleton, List.not_mem_nil, or_false] at hc
    rcases hc with rfl | rfl | rfl | rfl | rfl
    · exact hh _ h.1.1.1.1
    · exact ht _ h.1.1.1.2
    · exact ht _ h.1.1.2
    · exact hp _ h.1.2
    · exact hs _ h.2
  · simp [isSchemeName] at h

theorem hasHttpScheme_length (u : Str) (h : hasHttpScheme u = true) : 7 ≤ u.length := by
  obtain ⟨sch, rest, hs, rfl⟩ := (hasHttpScheme_iff u).mp h
  have := (isSchemeName_chars sch hs).1
  simp only [List.length_append, List.length_cons]
  omega

/-! ## The shape of a normalised base URL -/

theorem withScheme_hasHttpScheme (url : Str) : hasHttpScheme (withScheme url) = true := by
  unfold withScheme
  split
  · assumption
  · exact (hasHttpScheme_iff _).mpr ⟨"http".toList, trim url, by decide, rfl⟩

theorem normalizeBaseURL_of_ne_nil (url : Str) (h : url ≠ []) :
    normalizeBaseURL url = stripTrailingSlashes (withScheme url) := by
  have he : url.isEmpty = false := by
    cases url with
    | nil => exact absurd rfl h
    | cons c cs => rfl
  unfold normalizeBaseURL withScheme
  rw [he]
  cases hs : hasHttpScheme (trim url) <;> simp [hs]

theorem strip_scheme_all (sch rest : Str) (h : ∀ c ∈ rest, c = '/') :
    stripTrailingSlashes (sch ++ ':' :: '/' :: '/' :: rest) = sch ++ [':'] := by
  have e : sch ++ ':' :: '/' :: '/' :: rest = (sch ++ [':']) ++ ('/' :: '/' :: rest) := by simp
  unfold stripTrailingSlashes
  rw [e, rdropWhile_append_all, List.rdropWhile_concat_neg _ _ _ (by decide)]
  intro x hx
  simp only [List.mem_cons] at hx
  rcases hx with rfl | rfl | hx
  · rfl
  · rfl
  · rw [h x hx]; rfl

theorem strip_scheme_some (sch rest : Str) (h : ∃ c ∈ rest, c ≠ '/') :
    stripTrailingSlashes (sch ++ ':' :: '/' :: '/' :: rest)
      = sch ++ ':' :: '/' :: '/' :: stripTrailingSlashes rest := by
  have e : sch ++ ':' :: '/' :: '/' :: rest = (sch ++ [':', '/', '/']) ++ rest := by simp
  unfold stripTrailingSlashes
  rw [e, rdropWhile_append_some]
  · simp
  · obtain ⟨c, hc, hne⟩ := h
    exact ⟨c, hc, by simpa using hne⟩

theorem afterScheme_scheme (sch rest : Str) (h : isSchemeName sch = true) :
    afterScheme (sch ++ ':' :: '/' :: '/' :: rest) = rest := by
  have e : sch ++ ':' :: '/' :: '/' :: rest = (sch ++ [':']) ++ ('/' :: '/' :: rest) := by simp
  unfold afterScheme
  rw [e, dropWhile_append_all]
  · simp [List.dropWhile_cons]
  · intro x hx
    rcases List.mem_append.mp hx with hx | hx
    · simpa using ((isSchemeName_chars sch h).2 x hx).1
    · simp only [List.mem_singleton] at hx
      rw [hx]; rfl

/-- The last character of a normalised base URL is not `/`. -/
theorem normalizeBaseURL_getLast (url : Str) :
    (normalizeBaseURL url).getLast? ≠ some '/' := by
  by_cases h : url = []
  · rw [h]; decide
  · rw [normalizeBaseURL_of_ne_nil url h]
    intro hc
    have := rdropWhile_getLast (fun c => c == '/') (withScheme url) '/' hc
    simp at this

/-- A normalised base URL starts with a scheme name and a colon; when the `//` does not
follow, nothing does. -/
theorem normalizeBaseURL_shape (url : Str) :
    ∃ sch tail, isSchemeName sch = true ∧ normalizeBaseURL url = sch ++ ':' :: tail
      ∧ (hasHttpScheme (normalizeBaseURL url) = false → tail = []) := by
  by_cases h : url = []
  · rw [h]
    exact ⟨"http".toList, "//127.0.0.1:8000".toList, by decide, by decide, by decide⟩
  · obtain ⟨sch, rest, hs, hw⟩ := (hasHttpScheme_iff _).mp (withScheme_hasHttpScheme url)
    rw [normalizeBaseURL_of_ne_nil url h, hw]
    by_cases hr : ∀ c ∈ rest, c = '/'
    · rw [strip_scheme_all sch rest hr]
      exact ⟨sch, [], hs, rfl, fun _ => rfl⟩
    · have hr2 : ∃ c ∈ rest, c ≠ '/' := by
        by_contra hno
        exact hr (fun c hc => by
          by_contra hne
          exact hno ⟨c, hc, hne⟩)
      rw [strip_scheme_some sch rest hr2]
      refine ⟨sch, '/' :: '/' :: stripTrailingSlashes rest, hs, rfl, ?_⟩
      intro hf
      rw [(hasHttpScheme_iff _).mpr ⟨sch, stripTrailingSlashes rest, hs, rfl⟩] at hf
      cases hf

/-- When the scheme test holds for a normalised base URL. -/
theorem normalizeBaseURL_hasHttpScheme_iff (url : Str) :
    hasHttpScheme (normalizeBaseURL url) = true
      ↔ url = [] ∨ ∃ c ∈ afterScheme (withScheme url), c ≠ '/' := by
  by_cases h : url = []
  · rw [h]
    exact ⟨fun _ => Or.inl rfl, fun _ => by decide⟩
  · obtain ⟨sch, rest, hs, hw⟩ := (hasHttpScheme_iff _).mp (withScheme_hasHttpScheme url)
    rw [normalizeBaseURL_of_ne_nil url h, hw, afterScheme_scheme sch rest hs]
    constructor
    · intro hn
      refine Or.inr ?_
      by_contra hno
      have hr : ∀ c ∈ rest, c = '/' := fun c hc => by
        by_contra hne
        exact hno ⟨c, hc, hne⟩
      rw [strip_scheme_all sch rest hr] at hn
      have hl := hasHttpScheme_length _ hn
      have := (isSchemeName_chars sch hs).1
      simp only [List.length_append, List.length_cons, List.length_nil] at hl
      omega
    · rintro (h1 | h1)
      · exact absurd h1 h
      · rw [strip_scheme_some sch rest h1]
        exact (hasHttpScheme_iff _).mpr ⟨sch, stripTrailingSlashes rest, hs, rfl⟩

theorem takeWhile_append_all {α : Type} (p : α → Bool) (a b : List α)
    (h : ∀ x ∈ a, p x = true) : (a ++ b).takeWhile p = a ++ b.takeWhile p := by
  induction a with
  | nil => rfl
  | cons x a ih =>
    rw [List.cons_append, List.takeWhile_cons, if_pos (h x (List.mem_cons_self _ _)),
      ih (fun y hy => h y (List.mem_cons_of_mem _ hy)), List.cons_append]

/-- The text of a URL up to its first `/` is its scheme name and the colon. -/
theorem takeWhile_scheme (sch rest : Str) (h : isSchemeName sch = true) :
    (sch ++ ':' :: '/' :: '/' :: rest).takeWhile (fun c => c != '/') = sch ++ [':'] := by
  have e : sch ++ ':' :: '/' :: '/' :: rest = (sch ++ [':']) ++ ('/' :: '/' :: rest) := by simp
  rw [e, takeWhile_append_all]
  · simp [List.takeWhile_cons]
  · intro x hx
    rcases List.mem_append.mp hx with hx | hx
    · simpa using ((isSchemeName_chars sch h).2 x hx).1
    · simp only [List.mem_singleton] at hx
      rw [hx]; rfl

/-- The normal form of a non-empty `url` in terms of `withScheme url`: its text up to the
first `/` when only slashes follow the `//`, and otherwise that text, the `//`, and what
follows with the trailing slashes removed. -/
theorem normalizeBaseURL_eq (url : Str) (h : url ≠ []) :
    ((∀ c ∈ afterScheme (withScheme url), c = '/') →
        normalizeBaseURL url = (withScheme url).takeWhile (fun c => c != '/'))
    ∧ ((∃ c ∈ afterScheme (withScheme url), c ≠ '/') →
        normalizeBaseURL url
          = (withScheme url).takeWhile (fun c => c != '/')
            ++ '/' :: '/' :: stripTrailingSlashes (afterScheme (withScheme url))) := by
  obtain ⟨sch, rest, hs, hw⟩ := (hasHttpScheme_iff _).mp (withScheme_hasHttpScheme url)
  rw [normalizeBaseURL_of_ne_nil url h, hw, afterScheme_scheme sch rest hs,
    takeWhile_scheme sch rest hs]
  constructor
  · intro hr
    exact strip_scheme_all sch rest hr
  · intro hr
    rw [strip_scheme_some sch rest hr]
    simp

/-! ## Strings without surrounding white space -/

theorem trim_eq_self_iff (s : Str) :
    trim s = s ↔ s.dropWhile isWhiteSpace = s ∧ s.rdropWhile isWhiteSpace = s := by
  constructor
  · intro h
    have h1 : (s.dropWhile isWhiteSpace).length ≤ s.length :=
      (List.dropWhile_suffix isWhiteSpace).length_le
    have h2 : ((s.dropWhile isWhiteSpace).rdropWhile isWhiteSpace).length
        ≤ (s.dropWhile isWhiteSpace).length :=
      (List.rdropWhile_prefix isWhiteSpace _).length_le
    unfold trim at h
    rw [h] at h2
    have h3 : s.dropWhile isWhiteSpace = s :=
      (List.dropWhile_suffix isWhiteSpace).eq_of_length (by omega)
    rw [h3] at h
    exact ⟨h3, h⟩
  · rintro ⟨h1, h2⟩
    unfold trim
    rw [h1, h2]

/-- A string that starts with a scheme name loses no character at its start when trimmed. -/
theorem dropWhile_scheme (sch tail : Str) (h : isSchemeName sch = true) :
    (sch ++ tail).dropWhile isWhiteSpace = sch ++ tail := by
  have hc := isSchemeName_chars sch h
  rcases sch with _ | ⟨c0, r⟩
  · simp at hc
  · have := (hc.2 c0 (List.mem_cons_self _ _)).2
    rw [List.cons_append, List.dropWhile_cons, this]
    simp

/-- A host with no surrounding white space and no trailing `/`, followed by any number of
`/`, is normalised to `http://` and the host, as long as the input does not pass the scheme
test. -/
theorem normalizeBaseURL_host (h : Str) (k : Nat) (hne : h ≠ []) (htrim : trim h = h)
    (hlast : h.getLast? ≠ some '/')
    (hs : hasHttpScheme (h ++ List.replicate k '/') = false) :
    normalizeBaseURL (h ++ List.replicate k '/') = "http://".toList ++ h := by
  obtain ⟨hd, hrd⟩ := (trim_eq_self_iff h).mp htrim
  have hurl : h ++ List.replicate k '/' ≠ [] := by simp [hne]
  have hheadne : (h.dropWhile isWhiteSpace).isEmpty = false := by
    rw [hd]
    cases h with
    | nil => exact absurd rfl hne
    | cons c cs => rfl
  have ht : trim (h ++ List.replicate k '/') = h ++ List.replicate k '/' := by
    rw [trim_eq_self_iff]
    constructor
    · rw [List.dropWhile_append, hheadne, hd]
      simp
    · rw [rdropWhile_eq_self]
      intro c hc
      rw [List.getLast?_append] at hc
      cases hr : (List.replicate k '/').getLast? with
      | none =>
        rw [hr] at hc
        exact (rdropWhile_eq_self isWhiteSpace h).mp hrd c hc
      | some x =>
        rw [hr] at hc
        simp only [Option.or_some, Option.some.injEq] at hc
        obtain ⟨ys, hys⟩ := List.getLast?_eq_some_iff.mp hr
        have hx : x ∈ List.replicate k '/' := by rw [hys]; simp
        rw [← hc, (List.mem_replicate.mp hx).2]
        decide
  rw [normalizeBaseURL_of_ne_nil _ hurl]
  unfold withScheme
  rw [ht, hs]
  simp only [Bool.false_eq_true, if_false]
  unfold stripTrailingSlashes
  rw [← List.append_assoc, rdropWhile_append_all, rdropWhile_eq_self]
  · intro c hc
    rw [List.getLast?_append_of_ne_nil _ hne] at hc
    by_contra hcs
    simp only [Bool.not_eq_false, beq_iff_eq] at hcs
    rw [hcs] at hc
    exact hlast hc
  · intro x hx
    rw [(List.mem_replicate.mp hx).2]
    rfl

/-- A string that passes the scheme test and ends neither in white space nor in `/` is its
own normal form. -/
theorem normalizeBaseURL_fixed (v : Str) (hs : hasHttpScheme v = true)
    (hlast : ∀ c, v.getLast? = some c → isWhiteSpace c = false ∧ c ≠ '/') :
    normalizeBaseURL v = v := by
  obtain ⟨sch, rest, hn, hv⟩ := (hasHttpScheme_iff v).mp hs
  have hne : v ≠ [] := by
    intro h0
    have := hasHttpScheme_length v hs
    rw [h0] at this
    simp at this
  have ht : trim v = v := by
    rw [trim_eq_self_iff]
    constructor
    · rw [hv]; exact dropWhile_scheme sch _ hn
    · rw [rdropWhile_eq_self]
      exact fun c hc => (hlast c hc).1
  rw [normalizeBaseURL_of_ne_nil v hne]
  unfold withScheme
  rw [ht, hs]
  simp only [if_true]
  unfold stripTrailingSlashes
  rw [rdropWhile_eq_self]
  intro c hc
  simpa using (hlast c hc).2

/-- Normalising twice gives the result of normalising once exactly when that result passes
the scheme test and does not end in white space. -/
theorem normalizeBaseURL_idem_iff (url : Str) :
    normalizeBaseURL (normalizeBaseURL url) = normalizeBaseURL url
      ↔ hasHttpScheme (normalizeBaseURL url) = true
        ∧ ∀ c, (normalizeBaseURL url).getLast? = some c → isWhiteSpace c = false := by
  obtain ⟨sch, tail, hn, hN, htail⟩ := normalizeBaseURL_shape url
  have hslash := normalizeBaseURL_getLast url
  generalize normalizeBaseURL url = N at hN htail hslash ⊢
  have hNne : N ≠ [] := by rw [hN]; simp
  constructor
  · intro hfix
    have hs : hasHttpScheme N = true := by
      by_contra hns
      have hns2 : hasHttpScheme N = false := by simpa using hns
      have ht0 := htail hns2
      have htrim : trim N = N := by
        rw [trim_eq_self_iff]
        constructor
        · rw [hN]; exact dropWhile_scheme sch _ hn
        · rw [rdropWhile_eq_self, hN, ht0]
          intro c hc
          rw [List.getLast?_concat] at hc
          simp only [Option.some.injEq] at hc
          rw [← hc]
          decide
      have hhost := normalizeBaseURL_host N 0 hNne htrim hslash (by simpa using hns2)
      simp only [List.replicate_zero, List.append_nil] at hhost
      rw [hhost] at hfix
      have hlen := congrArg List.length hfix
      simp at hlen
      omega
    refine ⟨hs, ?_⟩
    intro c hc
    by_contra hws
    have hws2 : isWhiteSpace c = true := by simpa using hws
    obtain ⟨sch2, rest, hn2, hv⟩ := (hasHttpScheme_iff N).mp hs
    have hd : N.dropWhile isWhiteSpace = N := by
      rw [hv]; exact dropWhile_scheme _ _ hn2
    have hshort : (N.rdropWhile isWhiteSpace).length < N.length := by
      have hp := List.rdropWhile_prefix isWhiteSpace N
      have hne : N.rdropWhile isWhiteSpace ≠ N := fun he => by
        have h1 := (rdropWhile_eq_self _ _).mp he c hc
        rw [hws2] at h1
        cases h1
      have hle := hp.length_le
      by_contra hge
      exact hne (hp.eq_of_length (by omega))
    have hts : hasHttpScheme (N.rdropWhile isWhiteSpace) = true := by
      have e : sch2 ++ ':' :: '/' :: '/' :: rest = (sch2 ++ [':', '/', '/']) ++ rest := by
        simp
      rw [hv, e]
      by_cases hall : ∀ x ∈ rest, isWhiteSpace x = true
      · have e2 : sch2 ++ [':', '/', '/'] = (sch2 ++ [':', '/']) ++ ['/'] := by simp
        rw [rdropWhile_append_all _ _ _ hall, e2,
          List.rdropWhile_concat_neg _ _ _ (by decide)]
        exact (hasHttpScheme_iff _).mpr ⟨sch2, [], hn2, by simp⟩
      · have hsome : ∃ x ∈ rest, isWhiteSpace x = false := by
          by_contra hno
          exact hall (fun x hx => by
            by_contra hx2
            exact hno ⟨x, hx, by simpa using hx2⟩)
        rw [rdropWhile_append_some _ _ _ hsome]
        exact (hasHttpScheme_iff _).mpr ⟨sch2, rest.rdropWhile isWhiteSpace, hn2, by simp⟩
    have hnorm : normalizeBaseURL N = stripTrailingSlashes (N.rdropWhile isWhiteSpace) := by
      rw [normalizeBaseURL_of_ne_nil N hNne]
      unfold withScheme trim
      rw [hd, hts]
      simp
    rw [hnorm] at hfix
    have hle := (List.rdropWhile_prefix (fun c => c == '/')
      (N.rdropWhile isWhiteSpace)).length_le
    unfold stripTrailingSlashes at hfix
    rw [hfix] at hle
    omega
  · rintro ⟨hs, hws⟩
    exact normalizeBaseURL_fixed N hs
      (fun c hc => ⟨hws c hc, fun h => hslash (by rw [hc, h])⟩)

/-! ## Claims on `apiFetch` -/

/-- C1, the path on which the claim fails: with the indicator requested and the first
attempt succeeding, `apiFetch` calls `showLoading` once, performs the fetch and resolves with
the parsed body; `hideLoading` is never called, so the indicator stays on screen. -/
theorem apiFetch_success_never_hides :
    apiFetch emptyStore alwaysOk "/upload".toList { showLoading := true, retryCount := 0 }
      = ([Effect.showLoading "处理中...".toList,
          Effect.fetch "http://127.0.0.1:8000/upload".toList], Except.ok 7)
    ∧ countShow (apiFetch emptyStore alwaysOk "/upload".toList
        { showLoading := true, retryCount := 0 }).1 = 1
    ∧ countHide (apiFetch emptyStore alwaysOk "/upload".toList
        { showLoading := true, retryCount := 0 }).1 = 0 :=
  ⟨by rfl, by decide, by decide⟩

/-- C6: when every attempt times out (throws an error named `AbortError`), `apiFetch`
performs exactly `retryCount + 1` fetch attempts and rejects with an `Error` whose message is
the fixed timeout message. -/
theorem apiFetch_always_timeout {β : Type} (st : Storage) (transport : Nat → FetchOutcome β)
    (path : Str) (options : FetchOptions)
    (h : ∀ i, ∃ e, transport i = FetchOutcome.throws e ∧ isAbort e = true) :
    countFetch (apiFetch st transport path options).1 = options.retryCount + 1
      ∧ (apiFetch st transport path options).2
          = Except.error (newError "请求超时，请重试".toList) := by
  obtain ⟨e, he1, he2⟩ := h options.retryCount
  have hrun := apiFetch_of_break st transport path options options.retryCount e
    (Nat.le_refl _)
    (fun i hi => by
      obtain ⟨e', h1, h2⟩ := h i
      exact ⟨e', by rw [h1]; rfl, shouldRetry_abort i _ e' hi h2⟩)
    (by rw [he1]; rfl) (shouldRetry_last _ e)
  rw [hrun, finalMessage_abort e he2]
  refine ⟨?_, rfl⟩
  simp only [List.append_assoc]
  rw [countFetch_append, countFetch_append, countFetch_append, countFetch_shown,
    countFetch_retriedRounds, countFetch_closing]
  simp [countFetch]

/-- Witness for C6: the default options (`retryCount = 2`) against a transport that always
times out. -/
theorem apiFetch_always_timeout_witness :
    (∀ i : Nat, ∃ e, alwaysAbort i = FetchOutcome.throws e ∧ isAbort e = true)
    ∧ countFetch (apiFetch emptyStore alwaysAbort "/upload".toList {}).1 = 3
    ∧ (apiFetch emptyStore alwaysAbort "/upload".toList {}).2
        = Except.error (newError "请求超时，请重试".toList) :=
  ⟨fun _ => ⟨_, rfl, by decide⟩,
    apiFetch_always_timeout emptyStore alwaysAbort "/upload".toList {}
      (fun _ => ⟨_, rfl, by decide⟩)⟩

/-- C7: when the first `retryCount` attempts time out and attempt `retryCount + 1` returns an
ok response whose body parses to `data`, `apiFetch` resolves with `data`; each timed-out
attempt `i` (from 0) is followed by a wait of `1000 * (i + 1)` ms and then the next attempt,
and the waits add up to `500 * retryCount * (retryCount + 1)` ms. -/
theorem apiFetch_retry_then_success {β : Type} (st : Storage)
    (transport : Nat → FetchOutcome β) (path : Str) (options : FetchOptions) (data : β)
    (h : ∀ i, i < options.retryCount →
      ∃ e, transport i = FetchOutcome.throws e ∧ isAbort e = true)
    (hok : transport options.retryCount = FetchOutcome.ok (Except.ok data)) :
    (apiFetch st transport path options).2 = Except.ok data
      ∧ (apiFetch st transport path options).1
          = (if options.showLoading then [Effect.showLoading options.loadingText] else [])
            ++ (List.range options.retryCount).flatMap
                (fun i => [Effect.fetch (buildURL st path), Effect.wait (1000 * (i + 1))])
            ++ [Effect.fetch (buildURL st path)]
      ∧ waits (apiFetch st transport path options).1
          = (List.range options.retryCount).map (fun i => 1000 * (i + 1))
      ∧ (waits (apiFetch st transport path options).1).sum
          = 500 * options.retryCount * (options.retryCount + 1) := by
  have hrun := apiFetch_of_return st transport path options options.retryCount data
    (Nat.le_refl _)
    (fun i hi => by
      obtain ⟨e', h1, h2⟩ := h i hi
      exact ⟨e', by rw [h1]; rfl, shouldRetry_abort i _ e' hi h2⟩)
    (by rw [hok]; rfl)
  have hw : waits (apiFetch st transport path options).1
      = (List.range options.retryCount).map (fun i => 1000 * (i + 1)) := by
    rw [hrun]
    simp only []
    rw [waits_append, waits_append, waits_shown, waits_retriedRounds, List.range_eq_range']
    simp [waits]
  refine ⟨by rw [hrun], ?_, hw, ?_⟩
  · rw [hrun]
    simp only [shownAtStart, retriedRounds, List.range_eq_range']
  · rw [hw, backoff_total]

/-- Witness for C7: `retryCount = 2`, two timeouts and then an ok response with body `7`:
the call resolves with `7` after waiting 1000 ms and 2000 ms. -/
theorem apiFetch_retry_then_success_witness :
    (∀ i, i < 2 → ∃ e, abortTwiceThenOk i = FetchOutcome.throws e ∧ isAbort e = true)
    ∧ abortTwiceThenOk 2 = FetchOutcome.ok (Except.ok 7)
    ∧ (apiFetch emptyStore abortTwiceThenOk "/upload".toList {}).2 = Except.ok 7
    ∧ waits (apiFetch emptyStore abortTwiceThenOk "/upload".toList {}).1 = [1000, 2000]
    ∧ (waits (apiFetch emptyStore abortTwiceThenOk "/upload".toList {}).1).sum = 3000 := by
  have ha : ∀ i, i < 2 → ∃ e, abortTwiceThenOk i = FetchOutcome.throws e ∧ isAbort e = true :=
    fun i hi => ⟨⟨"AbortError".toList, "aborted".toList⟩, by simp [abortTwiceThenOk, hi],
      by decide⟩
  have h := apiFetch_retry_then_success emptyStore abortTwiceThenOk "/upload".toList {} 7
    ha (by rfl)
  exact ⟨ha, by rfl, h.1, h.2.2.1, h.2.2.2⟩

/-- C8, the input on which the code breaks the claim: with `retryCount = 1`, a `400`
response whose text is `invalid field network_id` does not end the loop. The error thrown
for it carries the text in its message, the retry test finds `network` there, and a wait of
1000 ms and a second attempt follow; the call resolves with the body of the second response
instead of rejecting with `HTTP 400: invalid field network_id`. -/
theorem apiFetch_nonok_network_text_retried :
    apiFetch emptyStore badRequestThenOk "/upload".toList { retryCount := 1 }
      = ([Effect.showLoading "处理中...".toList,
          Effect.fetch "http://127.0.0.1:8000/upload".toList, Effect.wait 1000,
          Effect.fetch "http://127.0.0.1:8000/upload".toList], Except.ok 7)
    ∧ waits (apiFetch emptyStore badRequestThenOk "/upload".toList { retryCount := 1 }).1
        = [1000]
    ∧ countFetch (apiFetch emptyStore badRequestThenOk "/upload".toList { retryCount := 1 }).1
        = 2
    ∧ (apiFetch emptyStore badRequestThenOk "/upload".toList { retryCount := 1 }).2
        ≠ Except.error (newError "HTTP 400: invalid field network_id".toList) :=
  ⟨by rfl, by decide, by decide, by
    have h : (apiFetch emptyStore badRequestThenOk "/upload".toList { retryCount := 1 }).2
        = Except.ok 7 := by rfl
    rw [h]
    exact fun hc => by cases hc⟩

/-- Where the code agrees with the claim on non-ok responses: a response with status `s` and
text `t`, received at attempt `k` after `k` attempts that each threw a timeout or an error
with `network` in its message, ends the loop at that attempt when `t` does not contain
`network` or `k` is the last attempt. The trace is the `k` retried rounds, the fetch of
attempt `k`, the toast unless silent and `hideLoading` when the indicator was shown, and the
call rejects with an `Error` whose message is `HTTP s: t`. -/
theorem apiFetch_nonok_ends_loop {β : Type} (st : Storage) (transport : Nat → FetchOutcome β)
    (path : Str) (options : FetchOptions) (k : Nat) (s : Fin 65536) (t : Str)
    (hk : k ≤ options.retryCount)
    (hr : ∀ i, i < k → ∃ e, attemptOnce (transport i) = Except.error e
      ∧ (e.name = "AbortError".toList ∨ includes e.message "network".toList = true))
    (hs : transport k = FetchOutcome.notOk s (Except.ok t))
    (ht : includes t "network".toList = false ∨ k = options.retryCount) :
    apiFetch st transport path options
      = ((if options.showLoading then [Effect.showLoading options.loadingText] else [])
            ++ (List.range k).flatMap
                (fun i => [Effect.fetch (buildURL st path), Effect.wait (1000 * (i + 1))])
            ++ [Effect.fetch (buildURL st path)]
            ++ (if options.silent then []
                else [Effect.showToast
                  ("HTTP ".toList ++ decimal s.val ++ ": ".toList ++ t) 3000])
            ++ (if options.showLoading then [Effect.hideLoading] else []),
          Except.error (newError ("HTTP ".toList ++ decimal s.val ++ ": ".toList ++ t)))
    ∧ countFetch (apiFetch st transport path options).1 = k + 1
    ∧ (waits (apiFetch st transport path options).1).length = k := by
  have hn : shouldRetry k options.retryCount
      (newError ("HTTP ".toList ++ decimal s.val ++ ": ".toList ++ t)) = false := by
    rcases ht with ht | ht
    · have h1 : ("Error".toList == "AbortError".toList) = false := by decide
      have h2 : (newError ("HTTP ".toList ++ decimal s.val ++ ": ".toList ++ t)).name
          = "Error".toList := rfl
      have h3 : (newError ("HTTP ".toList ++ decimal s.val ++ ": ".toList ++ t)).message
          = "HTTP ".toList ++ decimal s.val ++ ": ".toList ++ t := rfl
      unfold shouldRetry
      rw [h2, h3, includes_http_message, ht, h1]
      simp
    · rw [ht]; exact shouldRetry_last _ _
  have hr2 : ∀ i, i < k → ∃ e, attemptOnce (transport i) = Except.error e
      ∧ shouldRetry i options.retryCount e = true := by
    intro i hi
    obtain ⟨e, he1, he2⟩ := hr i hi
    refine ⟨e, he1, ?_⟩
    have hlt : i < options.retryCount := by omega
    unfold shouldRetry
    rcases he2 with he2 | he2
    · rw [he2]; simp [hlt]
    · rw [he2]; simp [hlt]
  have hrun := apiFetch_of_break st transport path options k _ hk hr2 (by rw [hs]; rfl) hn
  rw [finalMessage_http] at hrun
  refine ⟨?_, ?_, ?_⟩
  · rw [hrun]
    simp only [shownAtStart, retriedRounds, List.range_eq_range']
  · rw [hrun]
    simp only [List.append_assoc]
    rw [countFetch_append, countFetch_append, countFetch_append, countFetch_shown,
      countFetch_retriedRounds, countFetch_closing]
    simp [countFetch]
  · rw [hrun]
    simp only [List.append_assoc]
    rw [waits_append, waits_append, waits_append, waits_shown, waits_retriedRounds,
      waits_closing]
    simp [waits]

/-- An instance of `apiFetch_nonok_ends_loop`: a `404` response with text `missing` at the
first attempt of a call with the default options. -/
theorem apiFetch_nonok_ends_loop_example :
    apiFetch emptyStore alwaysNotFound "/upload".toList {}
      = ([Effect.showLoading "处理中...".toList,
          Effect.fetch "http://127.0.0.1:8000/upload".toList,
          Effect.showToast "HTTP 404: missing".toList 3000, Effect.hideLoading],
          Except.error (newError "HTTP 404: missing".toList)) :=
  (apiFetch_nonok_ends_loop emptyStore alwaysNotFound "/upload".toList {} 0 404
    "missing".toList (Nat.zero_le _) (fun i hi => absurd hi (Nat.not_lt_zero i)) (by rfl)
    (Or.inl (by decide))).1

/-! ## User identifier -/

/-- C2, the inputs on which the claim fails: `setUserId(0.5)` stores and returns `0`, and
`getUserId()` on a stored `0.5` returns `0`; neither is `≥ 1`. -/
theorem userId_fraction_gives_zero :
    (setUserId emptyStore (JSNumber.finite (1 / 2))).2 = 0
    ∧ (setUserId emptyStore (JSNumber.finite (1 / 2))).1.user_id = some (JSNumber.finite 0)
    ∧ (getUserId { api_base_url := [], user_id := some (JSNumber.finite (1 / 2)) }).2 = 0 := by
  have hpos : (0 : ℚ) < 1 / 2 := by norm_num
  have hfl : ⌊(1 / 2 : ℚ)⌋ = 0 := by
    rw [Int.floor_eq_iff]
    norm_num
  refine ⟨?_, ?_, ?_⟩
  · simp only [setUserId, safeUserId, if_pos hpos, hfl]
  · simp only [setUserId, safeUserId, if_pos hpos, hfl, Int.cast_zero]
  · simp only [getUserId, storedNumber, isPositiveFinite, decide_eq_true hpos, if_true,
      safeUserId, if_pos hpos, hfl]

/-! ## Error classification -/

/-- C5 as stated fails at status `0`: an error object carrying only the status `0` is
classified as an unknown error, not as `请求失败 (0)`. -/
theorem handleError_status_zero :
    handleError noLargeNumbers { statusCode := some 0 } = "未知错误".toList
    ∧ handleError noLargeNumbers { statusCode := some 0 } ≠ "请求失败 (0)".toList := by
  decide

/-- C5, amended: `handleError` is the classification table read top to bottom, where a
status of `0` counts as no status. If `errMsg` contains `fail`, the result is the timeout
message when `errMsg` also contains `timeout` and the network-failure message otherwise.
Else, for a status `s ≠ 0`: `请求参数错误` for 400, `接口不存在` for 404, `服务器内部错误` for
500 and, for every other `s`, `请求失败 (` followed by `s` as a template literal renders it
and `)`; that rendering is the decimal digits of `s` whenever `|s|` is at most
`Number.MAX_SAFE_INTEGER`. Else (no status, or status `0`) the result is the error's
message when it has a non-empty one and `未知错误` otherwise. -/
theorem handleError_table (renderLarge : Int → Str) (error : ErrorObj) :
    (∀ m, error.errMsg = some m → includes m "fail".toList = true →
        includes m "timeout".toList = true →
        handleError renderLarge error = "请求超时，请检查网络后重试".toList)
    ∧ (∀ m, error.errMsg = some m → includes m "fail".toList = true →
        includes m "timeout".toList = false →
        handleError renderLarge error = "网络连接失败，请检查后端服务是否启动".toList)
    ∧ ((∀ m, error.errMsg = some m → includes m "fail".toList = false) →
        (error.statusCode = some 400 → handleError renderLarge error = "请求参数错误".toList)
        ∧ (error.statusCode = some 404 → handleError renderLarge error = "接口不存在".toList)
        ∧ (error.statusCode = some 500 →
            handleError renderLarge error = "服务器内部错误".toList)
        ∧ (∀ s, error.statusCode = some s → s ≠ 0 → s ≠ 400 → s ≠ 404 → s ≠ 500 →
            handleError renderLarge error
                = "请求失败 (".toList ++ numberToString renderLarge s ++ ")".toList
            ∧ (s.natAbs ≤ MAX_SAFE_INTEGER →
                handleError renderLarge error
                  = "请求失败 (".toList ++ decimalInt s ++ ")".toList))
        ∧ (error.statusCode = none ∨ error.statusCode = some 0 →
            (∀ m, error.message = some m → m ≠ [] → handleError renderLarge error = m)
            ∧ (error.message = none ∨ error.message = some [] →
                handleError renderLarge error = "未知错误".toList))) := by
  have hne : ∀ m : Str, includes m "fail".toList = true → m.isEmpty = false := by
    intro m hm
    cases m with
    | nil => exact absurd hm (by decide)
    | cons c cs => rfl
  refine ⟨?_, ?_, ?_⟩
  · intro m hm hf ht
    simp only [handleError, hm, hne m hf, hf, ht, Option.getD_some, Bool.not_false,
      Bool.and_self, if_true]
  · intro m hm hf ht
    simp only [handleError, hm, hne m hf, hf, ht, Option.getD_some, Bool.not_false,
      Bool.and_self, if_true, Bool.false_eq_true, if_false]
  · intro hno
    have hc : (match error.errMsg with
        | some m => !m.isEmpty && includes m "fail".toList
        | none => false) = false := by
      cases hm : error.errMsg with
      | none => rfl
      | some m => simp only [hno m hm, Bool.and_false]
    refine ⟨?_, ?_, ?_, ?_, ?_⟩
    · intro hs
      simp only [handleError, hc, hs, Option.getD_some]
      rfl
    · intro hs
      simp only [handleError, hc, hs, Option.getD_some]
      rfl
    · intro hs
      simp only [handleError, hc, hs, Option.getD_some]
      rfl
    · intro s hs h0 h400 h404 h500
      have hrow : handleError renderLarge error
          = "请求失败 (".toList ++ numberToString renderLarge s ++ ")".toList := by
        simp only [handleError, hc, hs, Option.getD_some]
        simp [h0, h400, h404, h500]
      refine ⟨hrow, ?_⟩
      intro hsafe
      rw [hrow, numberToString, if_pos hsafe]
    · intro hs
      have hc2 : (match error.statusCode with
          | some s => s != 0
          | none => false) = false := by
        rcases hs with hs | hs
        · rw [hs]
        · rw [hs]; rfl
      refine ⟨?_, ?_⟩
      · intro m hm hmne
        have : m.isEmpty = false := by cases m with
          | nil => exact absurd rfl hmne
          | cons c cs => rfl
        simp only [handleError, hc, hc2, hm, this, Bool.false_eq_true, if_false]
      · intro hm
        rcases hm with hm | hm <;> simp only [handleError, hc, hc2, hm] <;> rfl

/-- Witness for C5 amended, at the status `403`: no transport message, a status other than
0, 400, 404 and 500, within the safe integers. -/
theorem handleError_table_witness :
    handleError noLargeNumbers { statusCode := some 403 } = "请求失败 (403)".toList :=
  (((handleError_table noLargeNumbers { statusCode := some 403 }).2.2
      (fun m hm => by cases hm)).2.2.2.1 403 rfl (by decide) (by decide) (by decide)
    (by decide)).2 (by decide)

/-! ## GET -/

/-- C9: a failed GET (a response whose status is not 200, or a transport failure) rejects
with an `Error` whose message is `handleError`'s classification of the failure, `接口不存在`
for 404, and shows exactly one toast carrying that message (for 2500 ms) when `silent` is
false and none when it is true; a response with status 200 resolves with the response body
and shows no toast. -/
theorem apiGet_contract {β : Type} (renderLarge : Int → Str) (st : Storage) (path : Str)
    (options : GetOptions) :
    (∀ data : β,
      (apiGet renderLarge st (RequestOutcome.success 200 data) path options).2
          = Except.ok data
      ∧ toasts (apiGet renderLarge st (RequestOutcome.success 200 data) path options).1 = [])
    ∧ (∀ (s : Int) (data : β), s ≠ 200 →
      (apiGet renderLarge st (RequestOutcome.success s data) path options).2
          = Except.error (newError (handleError renderLarge { statusCode := some s }))
      ∧ toasts (apiGet renderLarge st (RequestOutcome.success s data) path options).1
          = if options.silent then []
            else [(handleError renderLarge { statusCode := some s }, 2500)])
    ∧ (∀ err : ErrorObj,
      (apiGet renderLarge st (RequestOutcome.fail err : RequestOutcome β) path options).2
          = Except.error (newError (handleError renderLarge err))
      ∧ toasts (apiGet renderLarge st (RequestOutcome.fail err : RequestOutcome β) path
            options).1
          = if options.silent then [] else [(handleError renderLarge err, 2500)])
    ∧ handleError renderLarge { statusCode := some 404 } = "接口不存在".toList := by
  refine ⟨?_, ?_, ?_, by rfl⟩
  · intro data
    cases h1 : options.showLoading <;> simp [apiGet, toasts, h1]
  · intro s data hs
    cases h1 : options.showLoading <;> cases h2 : options.silent <;>
      simp [apiGet, toasts, showError, h1, h2, hs]
  · intro err
    cases h1 : options.showLoading <;> cases h2 : options.silent <;>
      simp [apiGet, toasts, showError, h1, h2]

/-! ## Claims on the base URL -/

/-- C3 as stated fails: the bare scheme `http://`, a white-space-only string and a string of
slashes are all normalised to `http:`, which does not begin with `http://`; and the host
`http:` followed by two slashes is not normalised to `http://http:`. -/
theorem normalizeBaseURL_degenerate :
    normalizeBaseURL "http://".toList = "http:".toList
    ∧ normalizeBaseURL "  ".toList = "http:".toList
    ∧ normalizeBaseURL "//".toList = "http:".toList
    ∧ hasHttpScheme (normalizeBaseURL "http://".toList) = false
    ∧ hasHttpScheme "http:".toList = false
    ∧ normalizeBaseURL ("http:".toList ++ List.replicate 2 '/')
        ≠ "http://".toList ++ "http:".toList := by
  decide

/-- C3, amended: for every string `url`, `normalizeBaseURL url` does not end in `/`; it
begins with `http://` or `https://` (letters in either case) exactly when `url` is empty
(the result is then the default `http://127.0.0.1:8000`) or the trimmed `url`, scheme
defaulted, has a character other than `/` after its `//`. When it does not begin so, the
result is the text of the trimmed `url`, scheme defaulted, up to its first `/`, which is a
scheme name followed by a colon; when it does and `url` is not empty, the result is that
text, the `//`, and what follows with its trailing slashes removed. For a host `h` that is
non-empty, has no surrounding white space and no trailing `/`, and any `k`: when `h`
followed by `k` slashes does not pass the scheme test, it is normalised to `http://`
followed by `h`. -/
theorem normalizeBaseURL_spec (url : Str) :
    (normalizeBaseURL url).getLast? ≠ some '/'
    ∧ (hasHttpScheme (normalizeBaseURL url) = true
        ↔ url = [] ∨ ∃ c ∈ afterScheme (withScheme url), c ≠ '/')
    ∧ (hasHttpScheme (normalizeBaseURL url) = false →
        normalizeBaseURL url = (withScheme url).takeWhile (fun c => c != '/')
        ∧ ∃ sch, isSchemeName sch = true ∧ normalizeBaseURL url = sch ++ [':'])
    ∧ (url ≠ [] → hasHttpScheme (normalizeBaseURL url) = true →
        normalizeBaseURL url
          = (withScheme url).takeWhile (fun c => c != '/')
            ++ '/' :: '/' :: stripTrailingSlashes (afterScheme (withScheme url)))
    ∧ normalizeBaseURL [] = "http://127.0.0.1:8000".toList
    ∧ (∀ (h : Str) (k : Nat), url = h ++ List.replicate k '/' → h ≠ [] → trim h = h →
        h.getLast? ≠ some '/' → hasHttpScheme url = false →
        normalizeBaseURL url = "http://".toList ++ h) := by
  refine ⟨normalizeBaseURL_getLast url, normalizeBaseURL_hasHttpScheme_iff url, ?_, ?_,
    by decide, ?_⟩
  · intro hf
    have hne : url ≠ [] := by
      intro h0
      rw [h0] at hf
      exact absurd hf (by decide)
    have hall : ∀ c ∈ afterScheme (withScheme url), c = '/' := by
      intro c hc
      by_contra hcne
      have ht := (normalizeBaseURL_hasHttpScheme_iff url).mpr (Or.inr ⟨c, hc, hcne⟩)
      rw [ht] at hf
      cases hf
    refine ⟨(normalizeBaseURL_eq url hne).1 hall, ?_⟩
    obtain ⟨sch, tail, hs, hN, ht⟩ := normalizeBaseURL_shape url
    exact ⟨sch, hs, by rw [hN, ht hf]⟩
  · intro hne ht
    rcases (normalizeBaseURL_hasHttpScheme_iff url).mp ht with h0 | hsome
    · exact absurd h0 hne
    · exact (normalizeBaseURL_eq url hne).2 hsome
  · intro h k hu hne htrim hlast hs
    rw [hu] at hs ⊢
    exact normalizeBaseURL_host h k hne htrim hlast hs

/-- Witness for C3 amended, at `127.0.0.1:9000/`: the host `127.0.0.1:9000` followed by one
slash is normalised to `http://127.0.0.1:9000`. -/
theorem normalizeBaseURL_spec_witness :
    normalizeBaseURL "127.0.0.1:9000/".toList = "http://127.0.0.1:9000".toList :=
  (normalizeBaseURL_spec "127.0.0.1:9000/".toList).2.2.2.2.2 "127.0.0.1:9000".toList 1
    (by decide) (by decide) (by decide) (by decide) (by decide)

/-- C4: with `B = getBaseURL()`: `buildURL('')` is `B`; a path that starts with `http://` or
`https://` (letters in either case) is returned unchanged; any other non-empty path gives
`B ++ path` when it starts with `/` and `B ++ '/' ++ path` when it does not. `B` itself
never ends in `/`, and a `/` is inserted only in front of a path that does not start with
one, so the join puts no second `/` after the separator. -/
theorem buildURL_spec (st : Storage) (path : Str) :
    buildURL st [] = getBaseURL st
    ∧ (hasHttpScheme path = true → buildURL st path = path)
    ∧ (path ≠ [] → hasHttpScheme path = false → startsWithSlash path = true →
        buildURL st path = getBaseURL st ++ path ∧ path.head? = some '/')
    ∧ (path ≠ [] → hasHttpScheme path = false → startsWithSlash path = false →
        buildURL st path = getBaseURL st ++ "/".toList ++ path ∧ path.head? ≠ some '/')
    ∧ (getBaseURL st).getLast? ≠ some '/' := by
  refine ⟨rfl, ?_, ?_, ?_, normalizeBaseURL_getLast _⟩
  · intro hs
    have hne : path.isEmpty = false := by
      cases path with
      | nil => simp [hasHttpScheme] at hs
      | cons c cs => rfl
    simp [buildURL, hne, hs]
  · intro hne hs hsl
    cases path with
    | nil => exact absurd rfl hne
    | cons c cs =>
      have hc : c = '/' := by simpa [startsWithSlash] using hsl
      subst hc
      simp [buildURL, hs, hsl]
  · intro hne hs hsl
    cases path with
    | nil => exact absurd rfl hne
    | cons c cs =>
      have hc : c ≠ '/' := by simpa [startsWithSlash] using hsl
      simp [buildURL, hs, hsl, hc]

/-- Witness for C4: on an empty store, `buildURL('courses')` is the default base URL, one
`/`, and `courses`. -/
theorem buildURL_spec_witness :
    buildURL emptyStore "courses".toList
      = "http://127.0.0.1:8000".toList ++ "/".toList ++ "courses".toList :=
  ((buildURL_spec emptyStore "courses".toList).2.2.2.1 (by decide) (by decide)
    (by decide)).1

/-- C10 as stated fails: `setBaseURL('http://')` stores and returns `http:`, and
`getBaseURL()` then returns `http://http:`; normalising `http://` twice differs from
normalising it once. -/
theorem baseURL_round_trip_fails :
    (setBaseURL emptyStore "http://".toList).2 = "http:".toList
    ∧ getBaseURL (setBaseURL emptyStore "http://".toList).1 = "http://http:".toList
    ∧ normalizeBaseURL (normalizeBaseURL "http://".toList)
        ≠ normalizeBaseURL "http://".toList
    ∧ normalizeBaseURL (normalizeBaseURL "http://a /".toList)
        ≠ normalizeBaseURL "http://a /".toList := by
  decide

/-- C10, amended: `setBaseURL(url)` stores and returns `u = normalizeBaseURL(url)`, and
`getBaseURL()` then returns `normalizeBaseURL(u)`. That value is `u` again, that is,
normalising twice equals normalising once, exactly when `u` begins with `http://` or
`https://` (letters in either case) and does not end in white space. -/
theorem baseURL_round_trip (st : Storage) (url : Str) :
    (setBaseURL st url).2 = normalizeBaseURL url
    ∧ (setBaseURL st url).1.api_base_url = normalizeBaseURL url
    ∧ getBaseURL (setBaseURL st url).1 = normalizeBaseURL (normalizeBaseURL url)
    ∧ (getBaseURL (setBaseURL st url).1 = (setBaseURL st url).2
        ↔ hasHttpScheme (normalizeBaseURL url) = true
          ∧ ∀ c, (normalizeBaseURL url).getLast? = some c → isWhiteSpace c = false)
    ∧ (normalizeBaseURL (normalizeBaseURL url) = normalizeBaseURL url
        ↔ hasHttpScheme (normalizeBaseURL url) = true
          ∧ ∀ c, (normalizeBaseURL url).getLast? = some c → isWhiteSpace c = false) := by
  have hget : getBaseURL (setBaseURL st url).1 = normalizeBaseURL (normalizeBaseURL url) := by
    obtain ⟨sch, tail, _, hN, _⟩ := normalizeBaseURL_shape url
    have hne : (normalizeBaseURL url).isEmpty = false := by
      rw [hN]
      cases sch <;> rfl
    simp only [getBaseURL, setBaseURL, hne, Bool.false_eq_true, if_false]
  refine ⟨rfl, rfl, hget, ?_, normalizeBaseURL_idem_iff url⟩
  rw [hget]
  exact normalizeBaseURL_idem_iff url

/-- Witness for C10 amended, at `127.0.0.1:9000/`: the stored value `http://127.0.0.1:9000`
begins with `http://` and does not end in white space, and it is read back unchanged. -/
theorem baseURL_round_trip_witness :
    getBaseURL (setBaseURL emptyStore "127.0.0.1:9000/".toList).1
      = (setBaseURL emptyStore "127.0.0.1:9000/".toList).2 :=
  (baseURL_round_trip emptyStore "127.0.0.1:9000/".toList).2.2.2.1.mpr
    ⟨by decide, by decide⟩

end Api
